import Mathlib

/-!
Verification of the git-pretty-log tool (src/main.go). The file under src
holds the current program (lines 1-267) and an earlier iteration of the same
tool (lines 268-535); definitions below are shallow embeddings of both where
the claims touch them. External collaborators (go-git, the git binary, the
flag package, terminal color) are modelled at their interfaces; color
wrapping is presentation only and is omitted, so every formatted field below
is the field content.
-/

namespace GitPrettyLog

/-- A commit as read from storage: content-addressed hash (its String form),
author display name, full message, and the tree snapshot modelled as an
association list from path to file content. -/
structure Commit where
  hash : String
  authorName : String
  message : String
  tree : List (String × String)
deriving DecidableEq

/-- The character class of the regex escape for whitespace in the Go regexp
package (RE2): tab, newline, form feed, carriage return, space. -/
def isReWs (c : Char) : Bool :=
  c = ' ' || c = '\t' || c = '\n' || c = '\x0c' || c = '\r'

/-- The space test of the Go unicode package on the ASCII range: space, tab,
newline, vertical tab, form feed, carriage return. The inputs handled here
are engine summaries and commit subjects, which stay in this range. -/
def goIsSpace (c : Char) : Bool :=
  c = ' ' || c = '\t' || c = '\n' || c = '\x0b' || c = '\x0c' || c = '\r'

/-- strings.TrimSpace: remove leading and trailing whitespace. -/
def goTrimSpace (s : String) : String :=
  String.mk (((s.toList.dropWhile goIsSpace).reverse.dropWhile goIsSpace).reverse)

/-- strings.Join: concatenate the elements with the separator between
consecutive elements. -/
def goJoin (sep : String) : List String → String
  | [] => ""
  | [x] => x
  | x :: xs => x ++ sep ++ goJoin sep xs

/-- Consume an exact literal from the front of the input, or fail. -/
def dropLit : List Char → List Char → Option (List Char)
  | [], cs => some cs
  | _ :: _, [] => none
  | l :: ls, c :: cs => if c = l then dropLit ls cs else none

/-- Consume one or more characters satisfying p (a greedy plus-match), or
fail when the first character does not satisfy p. -/
def span1 (p : Char → Bool) (cs : List Char) : Option (List Char × List Char) :=
  let t := cs.takeWhile p
  if t.isEmpty then none else some (t, cs.dropWhile p)

/-- The first optional group of shortstatRE (src/main.go line 235): digits,
whitespace, the word file with an optional s, whitespace, the word changed.
The captured digits are returned with the remaining input. Consuming the
optional s eagerly is faithful: when an s is present but not followed by
whitespace, both the eager and the backtracking reading fail. -/
def matchFilesGroup (cs : List Char) : Option (List Char × List Char) := do
  let (ds, cs) ← span1 Char.isDigit cs
  let (_, cs) ← span1 isReWs cs
  let cs ← dropLit "file".toList cs
  let cs := match cs with
    | 's' :: rest => rest
    | other => other
  let (_, cs) ← span1 isReWs cs
  let cs ← dropLit "changed".toList cs
  return (ds, cs)

/-- The second optional group of shortstatRE: a comma, whitespace, digits,
whitespace, the word insertion with an optional s, then a literal plus sign
in parentheses. -/
def matchInsGroup (cs : List Char) : Option (List Char × List Char) := do
  let cs ← dropLit ",".toList cs
  let (_, cs) ← span1 isReWs cs
  let (ds, cs) ← span1 Char.isDigit cs
  let (_, cs) ← span1 isReWs cs
  let cs ← dropLit "insertion".toList cs
  let cs := match cs with
    | 's' :: rest => rest
    | other => other
  let cs ← dropLit "(+)".toList cs
  return (ds, cs)

/-- The third optional group of shortstatRE: as the second, with the word
deletion and a literal minus sign in parentheses. -/
def matchDelGroup (cs : List Char) : Option (List Char × List Char) := do
  let cs ← dropLit ",".toList cs
  let (_, cs) ← span1 isReWs cs
  let (ds, cs) ← span1 Char.isDigit cs
  let (_, cs) ← span1 isReWs cs
  let cs ← dropLit "deletion".toList cs
  let cs := match cs with
    | 's' :: rest => rest
    | other => other
  let cs ← dropLit "(-)".toList cs
  return (ds, cs)

/-- FindStringSubmatch of shortstatRE on the trimmed engine output. Every
group of the regex is optional, so the pattern matches the empty string and
the leftmost match always starts at position zero; an absent group yields the
empty string, exactly as the Go code observes via matches indexing. -/
def shortstatGroups (s : String) : String × String × String :=
  let cs0 := s.toList
  let (g1, cs1) := match matchFilesGroup cs0 with
    | some (ds, rest) => (String.mk ds, rest)
    | none => ("", cs0)
  let (g2, cs2) := match matchInsGroup cs1 with
    | some (ds, rest) => (String.mk ds, rest)
    | none => ("", cs1)
  let (g3, _) := match matchDelGroup cs2 with
    | some (ds, rest) => (String.mk ds, rest)
    | none => ("", cs2)
  (g1, g2, g3)

/-- prettyDiff of the current program (src/main.go lines 237-267): run the
external engine as git diff with the shortstat option on the two hashes,
ignore the invocation error (a failed command leaves empty output, modelled
by the none input), trim, match shortstatRE, then join the nonempty groups
decorated with their symbols. The branch of the Go code for a missing match
never fires because the regex matches the empty string. -/
def prettyDiffExt (output : Option String) : String :=
  let ba := output.getD ""
  let groups := shortstatGroups (goTrimSpace ba)
  let totalFiles := groups.1
  let totalAdded := groups.2.1
  let totalDeleted := groups.2.2
  let parts : List String :=
    (if totalFiles ≠ "" then [totalFiles ++ "(~)"] else []) ++
    (if totalAdded ≠ "" then [totalAdded ++ "(+)"] else []) ++
    (if totalDeleted ≠ "" then [totalDeleted ++ "(-)"] else [])
  goJoin "," parts

/-- The command argument list built by prettyDiff (src/main.go line 238):
only the subcommand, the shortstat option and the two commit hashes; no
pathspec and no exclusion pattern is ever appended. -/
def prettyDiffCmdArgs (ancestorHash commitHash : String) : List String :=
  ["diff", "--shortstat", ancestorHash, commitHash]

/-- The log traversal of main (src/main.go lines 61-77), as the sequence of
appended rows restricted to their essential data: the commit processed and
the diff field passed to the row. gitOut models the external engine: given
the base hash and the commit hash it returns the raw shortstat output, or
none when the command fails. Each iteration first sets the reachable flag to
false when the visited commit equals the base commit, then stops when the
remaining count equals zero, then emits the row, with a diff against the
base exactly when still reachable. -/
def logWalk (baseHash : String) (gitOut : String → String → Option String) :
    List Commit → Int → Bool → List (Commit × String)
  | [], _, _ => []
  | commit :: rest, count, reachable =>
    let r := if commit.hash = baseHash then false else reachable
    if count = 0 then []
    else
      (commit, if r then prettyDiffExt (gitOut baseHash commit.hash) else "")
        :: logWalk baseHash gitOut rest (count - 1) r

/-- The seeding of the reachable flag (src/main.go lines 49-53): reachable
starts true and is set to false exactly when the merge-base result list is
empty. No membership test against the base commit is performed here. -/
def initialReachable (mbCommits : List Commit) : Bool :=
  if mbCommits.length = 0 then false else true

/-- The startup classification (src/main.go lines 47-53). The Head and
CommitObject errors are discarded; a failure there leaves a nil pointer
which the very next call dereferences, a runtime panic modelled by none.
A MergeBase failure instead leaves a nil result slice, so the flag becomes
false and the run continues. -/
def mainClassify (headRef : Option String)
    (commitObject : String → Option Commit)
    (mergeBase : Commit → Commit → Option (List Commit))
    (baseCommit : Commit) : Option Bool :=
  match headRef with
  | none => none
  | some headHash =>
    match commitObject headHash with
    | none => none
    | some headCommit =>
      some (initialReachable ((mergeBase headCommit baseCommit).getD []))

/-- commitContainsCommit of the earlier iteration (src/main.go lines
435-448): a MergeBase error propagates (none), an empty result list yields
false, otherwise the result is whether some merge-base commit has the hash
of the ancestor. -/
def commitContainsCommit (mbResult : Option (List Commit)) (ancestor : Commit) :
    Option Bool :=
  match mbResult with
  | none => none
  | some mb =>
    if mb.length = 0 then some false
    else some (mb.any fun m => m.hash == ancestor.hash)

/-- The count-limited front of a list under the Go loop discipline of main:
the counter is compared to zero for equality and decremented once per
emitted element, so a negative counter never stops the walk. -/
def takeCount {α : Type} : Int → List α → List α
  | _, [] => []
  | n, x :: xs => if n = 0 then [] else x :: takeCount (n - 1) xs

/-- The command line values as handed over by the flag package: none when
the flag was absent (the package then stores the registered default). -/
structure FlagInputs where
  longRepo : Option String
  shortRepo : Option String
  longBase : Option String
  shortBase : Option String
  longNum : Option Int
  shortNum : Option Int
deriving DecidableEq

/-- The values parseArgs settles on before opening the repository. -/
structure ResolvedArgs where
  repoPath : String
  baseName : String
  numberCommits : Int
deriving DecidableEq

/-- Flag resolution of parseArgs (src/main.go lines 140-160): the defaults
are the working directory, the empty string and 30; afterwards the long form
overwrites the short one whenever the long value differs from a sentinel,
which is the default working directory for the repo path, the empty string
for the base, and zero for the commit count. -/
def resolveArgs (wd : String) (inp : FlagInputs) : ResolvedArgs :=
  let longRepo := inp.longRepo.getD wd
  let repoPath0 := inp.shortRepo.getD wd
  let longBase := inp.longBase.getD ""
  let baseName0 := inp.shortBase.getD ""
  let longNumberCommits := inp.longNum.getD 30
  let numberCommits0 := inp.shortNum.getD 30
  let baseName := if longBase ≠ "" then longBase else baseName0
  let repoPath := if longRepo ≠ wd then longRepo else repoPath0
  let numberCommits :=
    if longNumberCommits ≠ 0 then longNumberCommits else numberCommits0
  { repoPath := repoPath, baseName := baseName, numberCommits := numberCommits }

/-- The names registered with the flag package by parseArgs (src/main.go
lines 141-148). -/
def registeredFlags : List String :=
  ["repo-path", "r", "base", "b", "num-commits", "n"]

/-- The flag package accepts an argument naming a flag exactly when that
name was registered; an unknown name makes parsing fail, which parseArgs
propagates and main turns into exit status 1. -/
def flagAccepted (name : String) : Bool :=
  registeredFlags.contains name

/-- The change set of DiffTreeWithOptions between two trees (src/main.go
line 511), at the interface: one entry per path whose content differs
between the trees, carrying the old and the new content (none for a path
absent on that side). -/
def treeChanges (fromTree toTree : List (String × String)) :
    List (Option String × Option String) :=
  let paths := (fromTree.map Prod.fst ++ toTree.map Prod.fst).dedup
  paths.filterMap fun p =>
    let o := fromTree.lookup p
    let n := toTree.lookup p
    if o = n then none else some (o, n)

/-- The aggregate triple of the diff: changed files, inserted lines, deleted
lines. -/
structure DiffStat where
  files : Nat
  added : Nat
  deleted : Nat
deriving DecidableEq

/-- The accumulation loop over the per-file stats (src/main.go lines
514-521): count every change and sum the additions and deletions reported
per file. The per-file line counting of the patch machinery is the external
collaborator fileStat, a function of the two file contents. -/
def diffTotals (fileStat : String → String → Nat × Nat)
    (changes : List (Option String × Option String)) : DiffStat :=
  changes.foldl
    (fun acc ch =>
      let s := fileStat (ch.1.getD "") (ch.2.getD "")
      { files := acc.files + 1, added := acc.added + s.1,
        deleted := acc.deleted + s.2 })
    ⟨0, 0, 0⟩

/-- prettyDiff of the earlier iteration (src/main.go lines 508-535): diff
the ancestor tree against the commit tree, total the stats, keep only the
strictly positive components decorated with their symbols in the fixed
order, and join them with commas. -/
def prettyDiffTree (fileStat : String → String → Nat × Nat)
    (commit ancestor : Commit) : String :=
  let changes := treeChanges ancestor.tree commit.tree
  let t := diffTotals fileStat changes
  let items : List (Nat × String) := [(t.files, "~"), (t.added, "+"), (t.deleted, "-")]
  let selectedItems :=
    (items.filter fun item => 0 < item.1).map
      fun item => toString item.1 ++ "(" ++ item.2 ++ ")"
  goJoin "," selectedItems

/-- Go slicing of a string up to index n: defined when n does not exceed the
length, otherwise a runtime panic, modelled by none. Hash strings are ASCII
hex, so the byte indexing of Go coincides with character indexing. -/
def goSliceTo (s : String) (n : Nat) : Option String :=
  if n ≤ s.toList.length then some (String.mk (s.toList.take n)) else none

/-- prettyHash (src/main.go lines 210-212): the first seven characters of
the hash string, taken with no length guard. -/
def prettyHash (commit : Commit) : Option String :=
  goSliceTo commit.hash 7

/-- The first element of SplitN applied to the message with separator
newline and limit two: the text up to the first line break, or the whole
string when no line break occurs. -/
def splitNFirst (s : String) : String :=
  String.mk (s.toList.takeWhile fun c => c != '\n')

/-- The map access of the reference table built by main: the list of short
reference names recorded for the given hash, in enumeration order. -/
def lookupRefs (m : List (String × List String)) (h : String) :
    Option (List String) :=
  (m.find? fun p => p.fst == h).map Prod.snd

/-- prettyMessage of the current program (src/main.go lines 219-233): the
subject line is the trimmed text before the first line break; when the hash
has reference names, each is wrapped in parentheses, the tokens are joined
with no separator and placed before the subject with a single space. -/
def prettyMessage (commit : Commit) (refHashToName : List (String × List String)) :
    String :=
  let message := goTrimSpace (splitNFirst commit.message)
  match lookupRefs refHashToName commit.hash with
  | some refNames =>
    let formattedRefNames := refNames.map fun rn => "(" ++ rn ++ ")"
    let refName := goJoin "" formattedRefNames
    refName ++ " " ++ message
  | none => message

/-! Concrete fixtures used by counterexamples and witnesses. -/

/-- An engine oracle whose every invocation fails. -/
def gNone : String → String → Option String := fun _ _ => none

/-- An engine oracle returning a fixed well-formed shortstat line. -/
def gEx : String → String → Option String :=
  fun _ _ => some " 2 files changed, 3 insertions(+), 1 deletion(-)"

/-- A commit lookup that always fails. -/
def coNone : String → Option Commit := fun _ => none

/-- A merge-base collaborator that always fails. -/
def mbNone : Commit → Commit → Option (List Commit) := fun _ _ => none

/-- A sample commit ahead of the base. -/
def cA : Commit :=
  ⟨"aaaaaaaaaaaaaaaaaaaaaaaaaaaaaaaaaaaaaaaa", "Alice", "feat: one", []⟩

/-- A sample commit behind the base. -/
def cC : Commit :=
  ⟨"cccccccccccccccccccccccccccccccccccccccc", "Carol", "feat: three", []⟩

/-- The sample base commit. -/
def cB : Commit :=
  ⟨"bbbbbbbbbbbbbbbbbbbbbbbbbbbbbbbbbbbbbbbb", "Bob", "feat: base", []⟩

/-- A commit standing for a lowest common ancestor distinct from the base. -/
def cL : Commit :=
  ⟨"1111111111111111111111111111111111111111", "Lca", "old root", []⟩

/-- A commit standing for the resolved head. -/
def cHead : Commit :=
  ⟨"dddddddddddddddddddddddddddddddddddddddd", "Dev", "tip", []⟩

/-- A commit lookup resolving every hash to the sample head commit. -/
def coSome : String → Option Commit := fun _ => some cHead

/-- The formatter example commit of the specification. -/
def cFix : Commit :=
  ⟨"deadbeefdeadbeefdeadbeefdeadbeefdeadbeef", "Alice",
    "Fix bug\n\nLonger body", []⟩

/-- A commit whose hash string is shorter than seven characters. -/
def cShort : Commit := ⟨"abc", "Short", "tiny", []⟩

/-- A reference table mapping the formatter example commit to two names. -/
def refMapFix : List (String × List String) :=
  [("deadbeefdeadbeefdeadbeefdeadbeefdeadbeef", ["main", "v1.0"])]

end GitPrettyLog
namespace GitPrettyLog

/-! Helper lemmas shared by the claim theorems. -/

/-- Diffing a tree against itself yields an empty change set. -/
theorem treeChanges_self (t : List (String × String)) : treeChanges t t = [] := by
  unfold treeChanges
  refine List.filterMap_eq_nil_iff.mpr ?_
  intro p _
  simp

/-- Once the reachable flag is false, every emitted row has an empty diff
field and the walk is the plain count-limited front of the history. -/
theorem logWalk_false (base : String) (g : String → String → Option String) :
    ∀ (cs : List Commit) (n : Int),
      logWalk base g cs n false = takeCount n (cs.map fun c => (c, "")) := by
  intro cs
  induction cs with
  | nil => intro n; simp [logWalk, takeCount]
  | cons c rest ih =>
    intro n
    simp only [logWalk, List.map_cons, takeCount, ite_self]
    by_cases h : n = 0
    · simp [h]
    · simp [h, ih]

/-- The sequence of commits emitted by the walk is the count-limited front
of the history, independent of the flag and of the diff engine. -/
theorem logWalk_map_fst (base : String) (g : String → String → Option String) :
    ∀ (cs : List Commit) (n : Int) (init : Bool),
      (logWalk base g cs n init).map Prod.fst = takeCount n cs := by
  intro cs
  induction cs with
  | nil => intro n init; simp [logWalk, takeCount]
  | cons c rest ih =>
    intro n init
    simp only [logWalk, takeCount]
    by_cases h : n = 0
    · simp [h]
    · simp [h, ih]

/-- Length of the count-limited front: a nonnegative counter takes the
minimum with the length, a negative counter never stops. -/
theorem takeCount_length {α : Type} (xs : List α) : ∀ n : Int,
    (takeCount n xs).length = if 0 ≤ n then min n.toNat xs.length else xs.length := by
  induction xs with
  | nil => intro n; simp [takeCount]
  | cons x xs ih =>
    intro n
    simp only [takeCount]
    by_cases h : n = 0
    · simp [h]
    · rw [if_neg h, List.length_cons, ih (n - 1)]
      by_cases h0 : 0 ≤ n
      · have h1 : 0 ≤ n - 1 := by omega
        rw [if_pos h1, if_pos h0]
        have hn : n.toNat = (n - 1).toNat + 1 := by omega
        rw [List.length_cons, hn]
        rcases Nat.le_total (n - 1).toNat xs.length with hle | hle
        · rw [Nat.min_eq_left hle, Nat.min_eq_left (by omega)]
        · rw [Nat.min_eq_right hle, Nat.min_eq_right (by omega)]
      · have h1 : ¬ 0 ≤ n - 1 := by omega
        rw [if_neg h1, if_neg h0, List.length_cons]

/-- Closed form of the walk around the first visit of the base commit: rows
before it keep the initial flag, the base row and every later row are
emitted with an empty diff field. -/
theorem logWalk_split (base : String) (g : String → String → Option String)
    (init : Bool) (b : Commit) (hb : b.hash = base) :
    ∀ (pre : List Commit), (∀ c ∈ pre, c.hash ≠ base) →
      ∀ (post : List Commit) (n : Int),
      logWalk base g (pre ++ b :: post) n init =
        takeCount n
          ((pre.map fun c => (c, if init then prettyDiffExt (g base c.hash) else ""))
            ++ (b, "") :: (post.map fun c => (c, ""))) := by
  intro pre
  induction pre with
  | nil =>
    intro _ post n
    simp only [List.nil_append, List.map_nil, logWalk, takeCount, hb, if_pos]
    by_cases h : n = 0
    · simp [h]
    · simp [h, logWalk_false]
  | cons c pre ih =>
    intro hpre post n
    have hc : c.hash ≠ base := hpre c (List.mem_cons_self c pre)
    have ih2 := ih (fun x hx => hpre x (List.mem_cons_of_mem c hx)) post (n - 1)
    simp only [List.cons_append, List.map_cons, logWalk, takeCount, if_neg hc]
    by_cases h : n = 0
    · simp [h]
    · simp [h, List.append_eq, ih2]

/-! Claim theorems. -/

/-- Claim C1 as stated is false on the code: with a merge-base result that
is a single common ancestor distinct from the base commit, the initial check
seeds the flag true although the base is not among the merge-base results. -/
theorem c1_counterexample :
    ¬ ((initialReachable [cL] = true) ↔ cB.hash ∈ [cL].map Commit.hash) := by
  decide

/-- Claim C1, amended: the initial check that seeds the traversal flag
returns true exactly when the merge-base result list of HEAD and the base is
nonempty, regardless of whether the base itself is among the results; the
membership test against the base exists only in commitContainsCommit of the
earlier iteration, which also propagates a merge-base error. -/
theorem c1_amended (mb : List Commit) (anc : Commit) :
    (initialReachable mb = true ↔ mb ≠ []) ∧
    commitContainsCommit (some mb) anc = some (mb.any fun m => m.hash == anc.hash) ∧
    commitContainsCommit none anc = none := by
  refine ⟨?_, ?_, rfl⟩
  · cases mb <;> simp [initialReachable]
  · cases mb <;> simp [commitContainsCommit]

/-- Claim C2: the stillAhead flag is monotonic in one run and is cleared
before the first visited commit equal to the base is processed, so the rows
before that visit carry a diff computed against the base exactly when the
run started ahead, while the base row and every later row carry an empty
diff field; and a run that starts not ahead never produces a diff field. -/
theorem c2_stillAhead_monotone (base : String) (g : String → String → Option String)
    (init : Bool) (pre post : List Commit) (b : Commit) (n : Int)
    (hb : b.hash = base) (hpre : ∀ c ∈ pre, c.hash ≠ base) :
    logWalk base g (pre ++ b :: post) n init =
      takeCount n
        ((pre.map fun c => (c, if init then prettyDiffExt (g base c.hash) else ""))
          ++ (b, "") :: (post.map fun c => (c, ""))) ∧
    (∀ (cs : List Commit) (m : Int),
      logWalk base g cs m false = takeCount m (cs.map fun c => (c, ""))) :=
  ⟨logWalk_split base g init b hb pre hpre post n,
   fun cs m => logWalk_false base g cs m⟩

/-- Witness for C2 at a five-commit shape: with the base in the middle, the
rows ahead of it carry the parsed diff stat, the base row and the row after
it are empty. -/
theorem c2_witness :
    logWalk cB.hash gEx ([cA] ++ cB :: [cC]) 10 true =
      [(cA, "2(~),3(+),1(-)"), (cB, ""), (cC, "")] := by
  have h := (c2_stillAhead_monotone cB.hash gEx true [cA] [cC] cB 10 rfl
    (by decide)).1
  rw [h]
  decide

/-- Claim C3 as stated is false on the code: with the configured count minus
one, a two-commit history yields two rows, not zero, because the loop
compares the counter to zero by equality and a negative counter never hits
zero. -/
theorem c3_counterexample :
    ¬ ((logWalk "b0" gNone [cA, cC] (-1) false).length = 0) := by
  decide

/-- Claim C3, amended: for a nonnegative count the walker emits the commits
of the history in order up to the count, stopping early on exhaustion, and a
count of zero emits nothing; for a negative count the limit never triggers
and the walker emits the entire history. -/
theorem c3_amended (base : String) (g : String → String → Option String)
    (cs : List Commit) (n : Int) (init : Bool) :
    (logWalk base g cs n init).map Prod.fst = takeCount n cs ∧
    (logWalk base g cs n init).length =
      if 0 ≤ n then min n.toNat cs.length else cs.length := by
  refine ⟨logWalk_map_fst base g cs n init, ?_⟩
  have h1 := congrArg List.length (logWalk_map_fst base g cs n init)
  rw [List.length_map] at h1
  rw [h1, takeCount_length]

/-- Claim C4 as stated is false on the code: neither the long nor the short
exclude flag is registered by parseArgs. -/
theorem c4_counterexample :
    ¬ (flagAccepted "exclude" = true ∨ flagAccepted "e" = true) := by
  decide

/-- Claim C4, amended: the program registers only the repo-path, base and
num-commits flag pairs, so an exclude flag is rejected by the flag parser,
and the diff invocation passes exactly the two commit hashes with no
exclusion pathspec, so diff stats are always computed over the unfiltered
diff. -/
theorem c4_amended (a c : String) :
    flagAccepted "exclude" = false ∧ flagAccepted "e" = false ∧
    registeredFlags = ["repo-path", "r", "base", "b", "num-commits", "n"] ∧
    prettyDiffCmdArgs a c = ["diff", "--shortstat", a, c] :=
  ⟨by decide, by decide, rfl, rfl⟩

/-- Claim C5 as stated is false on the code: when the head reference cannot
be read the discarded error leaves a nil reference whose use is a runtime
panic, modelled by none, not a continued run classified as not ahead. -/
theorem c5_counterexample :
    ¬ (mainClassify none coNone mbNone cB = some false) := by
  decide

/-- Claim C5, amended: only a merge-base failure degrades non-fatally, the
discarded error then yields an empty result list and the flag becomes false
while the run continues; a failure to read HEAD, or to load the head commit
object, dereferences a nil pointer and the program panics. -/
theorem c5_amended (headHash : String) (co : String → Option Commit)
    (mbf : Commit → Commit → Option (List Commit)) (bc hc : Commit)
    (h1 : co headHash = some hc) (h2 : mbf hc bc = none) :
    mainClassify (some headHash) co mbf bc = some false ∧
    (∀ (co2 : String → Option Commit) (mb2 : Commit → Commit → Option (List Commit))
      (b2 : Commit), mainClassify none co2 mb2 b2 = none) ∧
    (∀ (co3 : String → Option Commit) (mb3 : Commit → Commit → Option (List Commit))
      (b3 : Commit), co3 headHash = none →
        mainClassify (some headHash) co3 mb3 b3 = none) := by
  refine ⟨?_, fun _ _ _ => rfl, fun co3 mb3 b3 h3 => ?_⟩
  · simp [mainClassify, h1, h2, initialReachable]
  · simp [mainClassify, h3]

/-- Witness for C5 at concrete collaborators: a readable head with a failing
merge base classifies as not ahead and the run continues. -/
theorem c5_witness : mainClassify (some "headhash") coSome mbNone cB = some false :=
  (c5_amended "headhash" coSome mbNone cB cHead rfl rfl).1

/-- Claim C6 names the failing input: with only the short count flag set to
five, parseArgs resolves the commit limit to 30, because the long flag
default of 30 differs from the zero sentinel and overwrites the short value.
The code comment states the long form should win only when both are given. -/
theorem c6_code_behavior :
    (resolveArgs "/wd" ⟨none, none, none, none, none, some 5⟩).numberCommits = 30 ∧
    ¬ ((resolveArgs "/wd" ⟨none, none, none, none, none, some 5⟩).numberCommits = 5) := by
  decide

/-- Claim C7: a failed engine invocation yields an empty diff field, an
unparsable summary yields an empty diff field, every emitted row whose
engine call failed carries an empty diff field, and the emitted commit
sequence is independent of the engine, so no single failure aborts or
shortens the walk. -/
theorem c7_degrade :
    prettyDiffExt none = "" ∧
    prettyDiffExt (some "fatal: ambiguous argument") = "" ∧
    (∀ (base : String) (g : String → String → Option String) (cs : List Commit)
      (n : Int) (init : Bool), ∀ p ∈ logWalk base g cs n init,
        g base p.1.hash = none → p.2 = "") ∧
    (∀ (base : String) (g : String → String → Option String) (cs : List Commit)
      (n : Int) (init : Bool),
      (logWalk base g cs n init).map Prod.fst = takeCount n cs) := by
  refine ⟨by decide, by decide, ?_,
    fun base g cs n init => logWalk_map_fst base g cs n init⟩
  intro base g cs
  induction cs with
  | nil =>
    intro n init p hp
    simp [logWalk] at hp
  | cons c rest ih =>
    intro n init p hp hgp
    simp only [logWalk] at hp
    by_cases h : n = 0
    · simp [h] at hp
    · rw [if_neg h] at hp
      rcases List.mem_cons.mp hp with rfl | hmem
      · have hgc : g base c.hash = none := hgp
        have hnone : prettyDiffExt none = "" := by decide
        show (if _ then prettyDiffExt (g base c.hash) else "") = ""
        rw [hgc, hnone, ite_self]
      · exact ih (n - 1) _ p hmem hgp

/-- Witness for C7: a commit whose engine call fails is still emitted, with
an empty diff field. -/
theorem c7_witness :
    ((cA, "") ∈ logWalk "b0" gNone [cA] 5 true) ∧ ((cA, "") : Commit × String).2 = "" :=
  ⟨by decide, c7_degrade.2.2.1 "b0" gNone [cA] 5 true (cA, "") (by decide) rfl⟩

/-- Claim C8: the message field is the trimmed text before the first line
break; when reference names map to the commit hash, each is parenthesized,
the tokens are joined with no separator and followed by exactly one space
before the subject; with no mapped names the field is the bare subject. -/
theorem c8_message_field (c : Commit) (m : List (String × List String)) :
    (lookupRefs m c.hash = none →
      prettyMessage c m = goTrimSpace (splitNFirst c.message)) ∧
    (∀ refs, lookupRefs m c.hash = some refs →
      prettyMessage c m =
        goJoin "" (refs.map fun rn => "(" ++ rn ++ ")") ++ " " ++
          goTrimSpace (splitNFirst c.message)) := by
  constructor
  · intro h
    simp [prettyMessage, h]
  · intro refs h
    simp [prettyMessage, h]

/-- Witness for C8 on the examples of the specification: the body after the
first line break is discarded, and two mapped names produce the two joined
parenthesized tokens and a single space. -/
theorem c8_witness :
    prettyMessage cFix refMapFix = "(main)(v1.0) Fix bug" ∧
    prettyMessage cFix [] = "Fix bug" := by
  constructor
  · have h := (c8_message_field cFix refMapFix).2 ["main", "v1.0"] (by decide)
    rw [h]
    decide
  · have h := (c8_message_field cFix []).1 (by decide)
    rw [h]
    decide

/-- Claim C9: diffing a commit against itself produces an empty change set,
a DiffStat of all zeros, and after zero suppression an empty diff field, in
the tree-diff variant for every line-count collaborator; in the external
variant the engine prints nothing for identical commits, and empty output
renders as an empty field. -/
theorem c9_self_diff (fileStat : String → String → Nat × Nat) (c : Commit) :
    treeChanges c.tree c.tree = [] ∧
    diffTotals fileStat (treeChanges c.tree c.tree) = ⟨0, 0, 0⟩ ∧
    prettyDiffTree fileStat c c = "" ∧
    prettyDiffExt (some "") = "" := by
  refine ⟨treeChanges_self c.tree, ?_, ?_, by decide⟩
  · rw [treeChanges_self]
    rfl
  · simp only [prettyDiffTree, treeChanges_self]
    rfl

/-- Claim C10: the hash field is the seven-character front of the commit
identifier string whenever the identifier has at least seven characters, and
the unguarded slice is a runtime panic, modelled by none, on any shorter
identifier. -/
theorem c10_hash (c : Commit) :
    (7 ≤ c.hash.toList.length →
      prettyHash c = some (String.mk (c.hash.toList.take 7))) ∧
    (c.hash.toList.length < 7 → prettyHash c = none) := by
  constructor
  · intro h
    unfold prettyHash goSliceTo
    rw [if_pos h]
  · intro h
    unfold prettyHash goSliceTo
    rw [if_neg (by omega)]

/-- Witness for C10: a forty-character identifier yields its seven-character
front, a three-character identifier panics. -/
theorem c10_witness :
    prettyHash cFix = some "deadbee" ∧ prettyHash cShort = none := by
  constructor
  · have h := (c10_hash cFix).1 (by decide)
    rw [h]
    decide
  · exact (c10_hash cShort).2 (by decide)

end GitPrettyLog
